import Mathlib

/-!
Verification of the c-lbs-1 load-balancer sources.

Shallow embedding of the C functions the claims are about:
* chapter-04-advanced-features/advanced_lb.c — backend selection policies
  (the identical functions also appear in chapter-06-connection-pooling/pooled_lb.c);
* chapter-06-connection-pooling/pooled_lb.c — keep-alive parsing and session teardown;
* chapter-06-connection-pooling/conn_pool.c — pool cleanup sweep;
* chapter-07-rate-limiting/rate_limiter.c — token bucket, sliding window, allow;
* chapter-05-high-perf-io/event_loop_select.c — the select()-based reactor run.

Modelling conventions:
* C `int` / `long` / `time_t` become `Int` (no overflow is exercised by the claims;
  where the C code computes in `unsigned int`, the embedding reduces mod 2^32 at
  each step, as the hardware does);
* C `double` becomes `Rat`: every arithmetic operation performed by the code on
  doubles in the regions the claims touch (adds, multiplications, one division,
  comparisons, clamps) is exact on the values involved, so the rational semantics
  is the intended real-number reading of the code;
* each call to `time(NULL)` inside one function body is modelled by a single
  `now : Int` parameter (the calls happen within the same function activation);
* kernel observations (socket liveness, fd readiness) are oracle parameters;
* a C computation that is undefined behaviour (modulo by zero) is represented by
  `Except.error`; everything else is `Except.ok`.
-/

set_option linter.unusedVariables false

/-- Backend record, advanced_lb.c / pooled_lb.c `typedef struct Backend`.
Only the fields read or written by the selection policies are modelled. -/
structure Backend where
  weight : Int
  current_weight : Int
  is_healthy : Bool
  active_connections : Int
deriving DecidableEq, Repr

/-- Algorithm enum, advanced_lb.c / pooled_lb.c `typedef enum { ALG_... } Algorithm`. -/
inductive Algorithm where
  | round_robin
  | weighted_round_robin
  | least_connections
  | ip_hash
deriving DecidableEq, Repr

/-- LoadBalancer state: the `backends[]` array (as a function on indices),
`current_index` and `algorithm`.  `n` is `num_backends`. -/
structure LoadBalancer (n : Nat) where
  backends : Fin n → Backend
  current_index : Nat
  algorithm : Algorithm

/-- Body of the do-while loop of `select_round_robin` (advanced_lb.c:224).
Each iteration sets `current_index = (current_index + 1) % num_backends` and
returns that backend if it is healthy; the loop body runs at most `n` times
(`attempts < n`), here expressed with fuel.  Returns the found index (if any)
together with the final `current_index`. -/
def rrLoop (n : Nat) (hpos : 0 < n) (backends : Fin n → Backend) :
    Nat → Nat → Option (Fin n) × Nat
  | ci, 0 => (none, ci)
  | ci, Nat.succ fuel =>
    let ci2 := (ci + 1) % n
    if (backends ⟨ci2, Nat.mod_lt _ hpos⟩).is_healthy then
      (some ⟨ci2, Nat.mod_lt _ hpos⟩, ci2)
    else
      rrLoop n hpos backends ci2 fuel

/-- advanced_lb.c:224 `select_round_robin` (same code at pooled_lb.c:311).
When `num_backends == 0`, the C statement
`lb->current_index = (lb->current_index + 1) % lb->num_backends;`
is a modulo by zero: undefined behaviour, represented by `.error`.
Otherwise scan for a healthy backend; after a full unsuccessful cycle fall back
to `backends[(start + 1) % n]` irrespective of health. -/
def select_round_robin {n : Nat} (lb : LoadBalancer n) :
    Except String (Fin n × LoadBalancer n) :=
  if hpos : 0 < n then
    match rrLoop n hpos lb.backends lb.current_index n with
    | (some i, ci) => .ok (i, { lb with current_index := ci })
    | (none, ci) =>
      .ok (⟨(lb.current_index + 1) % n, Nat.mod_lt _ hpos⟩, { lb with current_index := ci })
  else
    .error "modulo by zero: num_backends == 0"

/-- One iteration of the for-loop of `select_weighted_round_robin`
(advanced_lb.c:238, pooled_lb.c:327) processing backend `i`.  The state is
(the backends array being mutated in place, `total_weight`, `best`).
Unhealthy backends are skipped; a healthy one gets
`current_weight += weight`, contributes to `total_weight`, and replaces `best`
when its refreshed `current_weight` is strictly greater (so the earliest
maximum wins ties, as in the C scan). -/
def wrrStep {n : Nat} (st : (Fin n → Backend) × Int × Option (Fin n)) (i : Fin n) :
    (Fin n → Backend) × Int × Option (Fin n) :=
  let acc := st.1
  let b := acc i
  if b.is_healthy then
    let b2 := { b with current_weight := b.current_weight + b.weight }
    let acc2 := Function.update acc i b2
    let best2 : Option (Fin n) :=
      match st.2.2 with
      | none => some i
      | some bi => if b2.current_weight > (acc2 bi).current_weight then some i else some bi
    (acc2, st.2.1 + b.weight, best2)
  else st

/-- advanced_lb.c:238 `select_weighted_round_robin` (same code at pooled_lb.c:327).
Run the pass over indices `0 .. n-1`; if a best was found subtract
`total_weight` from its `current_weight` and return it, else delegate to
`select_round_robin`. -/
def select_weighted_round_robin {n : Nat} (lb : LoadBalancer n) :
    Except String (Fin n × LoadBalancer n) :=
  match (List.finRange n).foldl wrrStep (lb.backends, 0, none) with
  | (acc, total, some bi) =>
    let best2 := { acc bi with current_weight := (acc bi).current_weight - total }
    .ok (bi, { lb with backends := Function.update acc bi best2 })
  | (acc, _, none) => select_round_robin { lb with backends := acc }

/-- One iteration of the for-loop of `select_least_connections`
(advanced_lb.c:261, pooled_lb.c:350).  `Int.tdiv` is C integer division
(truncation toward zero); `parse_backend` forces `weight >= 1` in both files,
so the divisor is never zero in any program state. -/
def lcStep {n : Nat} (backends : Fin n → Backend) (st : Int × Option (Fin n)) (i : Fin n) :
    Int × Option (Fin n) :=
  let b := backends i
  if b.is_healthy then
    let score := Int.tdiv (b.active_connections * 100) b.weight
    if score < st.1 then (score, some i) else st
  else st

/-- advanced_lb.c:261 `select_least_connections`: minimize the weight-adjusted
score over healthy backends starting from `min_score = INT_MAX`; delegate to
`select_round_robin` when none is healthy. -/
def select_least_connections {n : Nat} (lb : LoadBalancer n) :
    Except String (Fin n × LoadBalancer n) :=
  match (List.finRange n).foldl (lcStep lb.backends) (2147483647, none) with
  | (_, some bi) => .ok (bi, lb)
  | (_, none) => select_round_robin lb

/-- Hash of `select_ip_hash` (advanced_lb.c:281): `hash = hash * 31 + *p` over
the bytes of the client IP string, in `unsigned int` arithmetic (mod 2^32). -/
def ipHashVal (client_ip : List Nat) : Nat :=
  client_ip.foldl (fun h c => (h * 31 + c) % 4294967296) 0

/-- Body of the do-while scan of `select_ip_hash`: starting at `idx`, return the
first healthy backend among the next `fuel` positions (indices taken mod `n`). -/
def ipHashLoop (n : Nat) (hpos : 0 < n) (backends : Fin n → Backend) :
    Nat → Nat → Option (Fin n)
  | _, 0 => none
  | idx, Nat.succ fuel =>
    if (backends ⟨idx % n, Nat.mod_lt _ hpos⟩).is_healthy then
      some ⟨idx % n, Nat.mod_lt _ hpos⟩
    else
      ipHashLoop n hpos backends (idx % n + 1) fuel

/-- advanced_lb.c:281 `select_ip_hash` (same code at pooled_lb.c:368).
`int start = hash % lb->num_backends;` is a modulo by zero when
`num_backends == 0`.  Otherwise scan forward from `start` for a healthy
backend; after a full cycle return `backends[start]` regardless of health. -/
def select_ip_hash {n : Nat} (lb : LoadBalancer n) (client_ip : List Nat) :
    Except String (Fin n × LoadBalancer n) :=
  if hpos : 0 < n then
    match ipHashLoop n hpos lb.backends (ipHashVal client_ip % n) n with
    | some i => .ok (i, lb)
    | none => .ok (⟨ipHashVal client_ip % n, Nat.mod_lt _ hpos⟩, lb)
  else
    .error "modulo by zero: num_backends == 0"

/-- advanced_lb.c:301 `select_backend` (same code at pooled_lb.c:386): dispatch
on `lb->algorithm`. -/
def select_backend {n : Nat} (lb : LoadBalancer n) (client_ip : List Nat) :
    Except String (Fin n × LoadBalancer n) :=
  match lb.algorithm with
  | .weighted_round_robin => select_weighted_round_robin lb
  | .least_connections => select_least_connections lb
  | .ip_hash => select_ip_hash lb client_ip
  | .round_robin => select_round_robin lb

/-- Run `k` consecutive smooth-WRR selections, collecting the chosen indices in
order (the driver loop of the load balancer repeatedly calling
`select_weighted_round_robin`). -/
def wrrRun {n : Nat} (lb : LoadBalancer n) : Nat → Except String (List (Fin n) × LoadBalancer n)
  | 0 => .ok ([], lb)
  | Nat.succ k =>
    match select_weighted_round_robin lb with
    | .error e => .error e
    | .ok (i, lb2) =>
      match wrrRun lb2 k with
      | .error e => .error e
      | .ok (sels, lb3) => .ok (i :: sels, lb3)

/-- Sum of the weights of the healthy backends (the value `total_weight`
accumulates over one full pass). -/
def healthyTotalWeight {n : Nat} (backends : Fin n → Backend) : Int :=
  ∑ i, if (backends i).is_healthy then (backends i).weight else 0

/-- Selection list of a run, discarding the final state (projection used to
state concrete-run facts). -/
def runSelections {n : Nat} (r : Except String (List (Fin n) × LoadBalancer n)) :
    Option (List (Fin n)) :=
  match r with
  | .ok (sels, _) => some sels
  | .error _ => none

/-- Effect of one loop iteration of the weighted pass on one backend:
a healthy backend gets `current_weight += weight`, an unhealthy one is skipped. -/
def bumpHealthy (b : Backend) : Backend :=
  if b.is_healthy then { b with current_weight := b.current_weight + b.weight } else b

/-- The three-backend roster of spec scenario 1: weights 3 (A = index 0),
2 (B = index 1), 1 (C = index 2), all healthy, all `current_weight = 0`. -/
def lbABC : LoadBalancer 3 :=
  { backends := fun i =>
      { weight := if i = 0 then 3 else if i = 1 then 2 else 1
        current_weight := 0, is_healthy := true, active_connections := 0 }
    current_index := 0
    algorithm := .weighted_round_robin }

/-- A load balancer with an empty roster (`num_backends == 0`). -/
def lbEmpty (alg : Algorithm) : LoadBalancer 0 :=
  { backends := fun i => i.elim0, current_index := 0, algorithm := alg }

/-- Test whether `needle` is an initial segment of `hay` (the per-position
comparison `strstr` performs). -/
def leadMatch : List Char → List Char → Bool
  | [], _ => true
  | _ :: _, [] => false
  | a :: as, b :: bs => a == b && leadMatch as bs

/-- C `strstr(hay, needle) != NULL`: `needle` occurs contiguously in `hay`.
The scan tries every suffix of the haystack; note it is case-SENSITIVE. -/
def strstrFound (needle : List Char) : List Char → Bool
  | [] => leadMatch needle []
  | c :: rest => leadMatch needle (c :: rest) || strstrFound needle rest

/-- pooled_lb.c:436 `check_keep_alive`: HTTP/1.1 defaults to keep-alive unless
the exact bytes `Connection: close` occur; otherwise (HTTP/1.0 or anything
else) the request is close unless the exact bytes `Connection: keep-alive` or
`Connection: Keep-Alive` occur.  All matches are plain `strstr`, hence
case-sensitive. -/
def check_keep_alive (request : List Char) : Bool :=
  if strstrFound "HTTP/1.1".toList request then
    if strstrFound "Connection: close".toList request then false else true
  else if strstrFound "Connection: keep-alive".toList request
      || strstrFound "Connection: Keep-Alive".toList request then true
  else false

/-- ASCII lower-casing of one character (used only to state the spec's
case-insensitive reading of the keep-alive decision). -/
def asciiLower (c : Char) : Char :=
  if 'A' ≤ c ∧ c ≤ 'Z' then Char.ofNat (c.toNat + 32) else c

/-- Case-insensitive occurrence of `needle` in `hay` (ASCII folding), the
match the spec describes. -/
def containsCI (needle hay : List Char) : Bool :=
  strstrFound (needle.map asciiLower) (hay.map asciiLower)

/-- Modelled from the spec: the keep-alive decision as the claim states it,
with a case-insensitive match on the `Connection` header token.  This is the
claim-side definition, to be compared against `check_keep_alive` above. -/
def keep_alive_claimed (request : List Char) : Bool :=
  if strstrFound "HTTP/1.1".toList request then !(containsCI "Connection: close".toList request)
  else containsCI "Connection: keep-alive".toList request

/-- The concrete HTTP/1.1 request of claim C3's example: the `Connection`
header token appears as `connection: CLOSE`. -/
def c3Request : List Char :=
  "GET / HTTP/1.1\r\nHost: example.com\r\nconnection: CLOSE\r\n\r\n".toList

/-- Readiness/error bits of one dispatched event, pooled_lb.c session side
(`EVENT_READ = 1<<0`, `EVENT_WRITE = 1<<1`, `EVENT_ERROR = 1<<2`,
`EVENT_HUP = 1<<3`; a field is true iff the corresponding bit is set). -/
structure EventMask where
  read : Bool
  write : Bool
  error : Bool
  hup : Bool
deriving DecidableEq, Repr

/-- Session state, pooled_lb.c `typedef struct Connection`: the fields read by
`on_client_event` / `on_backend_event` / `free_connection`.  `has_backend`
models `conn->backend != NULL`. -/
structure Connection where
  client_fd : Int
  backend_fd : Int
  has_backend : Bool
  keep_alive : Bool
  request_forwarded : Bool
deriving DecidableEq, Repr

/-- What `free_connection` (pooled_lb.c:177) does with the backend fd:
return it to the pool (`conn_pool_return`), close it without pooling
(`conn_pool_close`), or nothing because the session holds no backend fd. -/
inductive BackendDisposition where
  | pooled
  | closedNotPooled
  | noBackendFd
deriving DecidableEq, Repr

/-- pooled_lb.c:177 `free_connection`, projected to the fate of the backend fd:
if `backend_fd >= 0`, it is `conn_pool_return`-ed when `conn->backend` is set
and `keep_alive` is still true, and `conn_pool_close`-d otherwise. -/
def free_connection_backend_fate (conn : Connection) : BackendDisposition :=
  if conn.backend_fd ≥ 0 then
    if conn.has_backend && conn.keep_alive then .pooled else .closedNotPooled
  else .noBackendFd

/-- Result of one client/backend event callback: either the session was freed
(recording what happened to the backend fd) or it continues with the updated
session state. -/
inductive SessionStep where
  | freed (fate : BackendDisposition)
  | continues (conn : Connection)
deriving DecidableEq, Repr

/-- pooled_lb.c:459 `on_client_event`.  `readResult` is the value returned by
`read(fd, buffer, ...)` and `buffer` its contents.  On `EVENT_ERROR`/`EVENT_HUP`
the session is freed with `keep_alive` cleared; on `read() <= 0` (which
includes the clean EOF `read() == 0`) the session is likewise freed with
`keep_alive` cleared; otherwise the bytes are forwarded (first request:
keep-alive disposition parsed, headers injected, counters bumped — of these
only the session-state updates are modelled). -/
def on_client_event (conn : Connection) (events : EventMask) (readResult : Int)
    (buffer : List Char) : SessionStep :=
  if events.error || events.hup then
    .freed (free_connection_backend_fate { conn with keep_alive := false })
  else if events.read then
    if readResult ≤ 0 then
      .freed (free_connection_backend_fate { conn with keep_alive := false })
    else if !conn.request_forwarded then
      .continues { conn with keep_alive := check_keep_alive buffer, request_forwarded := true }
    else
      .continues conn
  else .continues conn

/-- pooled_lb.c:498 `on_backend_event`: on `EVENT_ERROR`/`EVENT_HUP` the
session is freed with `keep_alive` cleared; on backend `read() <= 0` the
session is freed with `keep_alive` left as it is; otherwise bytes are relayed
to the client and the session continues. -/
def on_backend_event (conn : Connection) (events : EventMask) (readResult : Int) :
    SessionStep :=
  if events.error || events.hup then
    .freed (free_connection_backend_fate { conn with keep_alive := false })
  else if events.read then
    if readResult ≤ 0 then
      .freed (free_connection_backend_fate conn)
    else
      .continues conn
  else .continues conn

/-- Pooled connection state enum, conn_pool.h `PoolConnState`. -/
inductive PoolConnState where
  | free
  | in_use
  | closing
deriving DecidableEq, Repr

/-- One pool slot, conn_pool.h `PooledConnection`: the fields `conn_pool_cleanup`
reads or writes.  The backend identity, request counter and intrusive LRU
pointers are not consulted by the sweep and are omitted. -/
structure PooledConnection where
  fd : Int
  last_used : Int
  created : Int
  state : PoolConnState
deriving DecidableEq, Repr

/-- Pool state, conn_pool.h `conn_pool_t`, restricted to what the cleanup sweep
touches; `connections` is the slot array in index order. -/
structure ConnPool where
  connections : List PooledConnection
  current_size : Int
  ttl_seconds : Int
  pool_evictions : Int
deriving Repr

/-- Eviction test of `conn_pool_cleanup` (conn_pool.c:363): TTL expired
(when a TTL is configured), or idle longer than 30 s, or the liveness probe
`conn_is_alive` fails.  The probe is a kernel observation, passed in as the
oracle `alive`. -/
def should_evict (ttl_seconds now : Int) (alive : Int → Bool) (c : PooledConnection) : Bool :=
  if ttl_seconds > 0 ∧ now - c.created > ttl_seconds then true
  else if now - c.last_used > 30 then true
  else if !(alive c.fd) then true
  else false

/-- Body of the cleanup sweep on one slot: only `Free` slots holding an fd are
considered; an evicted slot has its fd closed and set to `-1`.  Returns the
updated slot and 1 if it was evicted. -/
def cleanupSlot (now ttl : Int) (alive : Int → Bool) (c : PooledConnection) :
    PooledConnection × Nat :=
  if c.state = PoolConnState.free ∧ c.fd ≥ 0 then
    if should_evict ttl now alive c then ({ c with fd := -1 }, 1) else (c, 0)
  else (c, 0)

/-- The cleanup sweep over the slot array, in order. -/
def cleanupList (now ttl : Int) (alive : Int → Bool) :
    List PooledConnection → List PooledConnection × Nat
  | [] => ([], 0)
  | c :: rest =>
    let r1 := cleanupSlot now ttl alive c
    let r2 := cleanupList now ttl alive rest
    (r1.1 :: r2.1, r1.2 + r2.2)

/-- conn_pool.c:353 `conn_pool_cleanup`: sweep every slot, return the eviction
count; each eviction also decrements `current_size` and bumps
`pool_evictions`. -/
def conn_pool_cleanup (now : Int) (alive : Int → Bool) (pool : ConnPool) : Nat × ConnPool :=
  let r := cleanupList now pool.ttl_seconds alive pool.connections
  (r.2, { pool with connections := r.1, current_size := pool.current_size - r.2,
                    pool_evictions := pool.pool_evictions + r.2 })

/-- Rate limiting algorithm enum, rate_limiter.h `RateLimitAlgorithm`. -/
inductive RateLimitAlgorithm where
  | token_bucket
  | sliding_window
  | fixed_window
deriving DecidableEq, Repr

/-- Per-key entry, rate_limiter.h `RateEntry` (the chaining pointer and the key
itself live in the table, modelled below as an association list). -/
structure RateEntry where
  tokens : Rat
  window_count : Int
  window_start : Int
  last_update : Int
deriving DecidableEq, Repr

/-- Limiter state, rate_limiter.h `rate_limiter_t`.  The hash table of chained
buckets is modelled as an association list keyed by the client key: chaining
only affects iteration order, which `rate_limiter_allow` never depends on. -/
structure RateLimiterState where
  algorithm : RateLimitAlgorithm
  rate : Rat
  burst : Rat
  window_size : Int
  entries : List (String × RateEntry)
  global_limit : Int
  global_count : Int
  global_window_start : Int
  allowed : Nat
  denied : Nat

/-- Lookup of a key in the entry table (the `strcmp` chain walk of
`find_or_create_entry`). -/
def lookupEntry : List (String × RateEntry) → String → Option RateEntry
  | [], _ => none
  | (k, e) :: rest, key => if k = key then some e else lookupEntry rest key

/-- The entry `find_or_create_entry` (rate_limiter.c:64) builds for a new key:
`calloc` zeroes `window_count`, `tokens` starts full at `burst`, and both
timestamps are set to the current time. -/
def freshEntry (burst : Rat) (now : Int) : RateEntry :=
  { tokens := burst, window_count := 0, window_start := now, last_update := now }

/-- rate_limiter.c:64 `find_or_create_entry`: return the existing entry for
`key`, or the fresh full-bucket entry.  (The `calloc` failure path, which makes
`rate_limiter_allow` fail open, is not modelled: allocation always succeeds.) -/
def find_or_create_entry (burst : Rat) (now : Int) (entries : List (String × RateEntry))
    (key : String) : RateEntry :=
  match lookupEntry entries key with
  | some e => e
  | none => freshEntry burst now

/-- Write the (possibly new) entry for `key` back into the table. -/
def storeEntry : List (String × RateEntry) → String → RateEntry → List (String × RateEntry)
  | [], key, e => [(key, e)]
  | (k, e0) :: rest, key, e =>
    if k = key then (k, e) :: rest else (k, e0) :: storeEntry rest key e

/-- rate_limiter.c:90 `token_bucket_allow`: refill by `elapsed * rate`, clamp
to `burst`, stamp `last_update`; admit and deduct one token iff at least one
token is available. -/
def token_bucket_allow (rate burst : Rat) (now : Int) (e : RateEntry) : Bool × RateEntry :=
  let elapsed : Rat := ((now - e.last_update : Int) : Rat)
  let t1 := e.tokens + elapsed * rate
  let t2 := if t1 > burst then burst else t1
  let e2 := { e with tokens := t2, last_update := now }
  if e2.tokens ≥ 1 then (true, { e2 with tokens := e2.tokens - 1 }) else (false, e2)

/-- C cast `(long)(double)`: truncation toward zero. -/
def ratTrunc (q : Rat) : Int :=
  if q < 0 then -Rat.floor (-q) else Rat.floor q

/-- rate_limiter.c:110 `sliding_window_allow`: when the window has passed,
carry `(long)(window_count * weight)` with
`weight = 1 - (now - window_start - window_size) / window_size` clamped below
at 0, and reset `window_start`; then admit iff `window_count < rate *
window_size`, incrementing on admission. -/
def sliding_window_allow (rate : Rat) (window_size : Int) (now : Int) (e : RateEntry) :
    Bool × RateEntry :=
  let e1 :=
    if now - e.window_start ≥ window_size then
      let weight0 : Rat := 1 - ((now - e.window_start - window_size : Int) : Rat) / ((window_size : Rat))
      let weight := if weight0 < 0 then 0 else weight0
      { e with window_count := ratTrunc ((e.window_count : Rat) * weight), window_start := now }
    else e
  if ((e1.window_count : Rat)) < rate * ((window_size : Rat)) then
    (true, { e1 with window_count := e1.window_count + 1 })
  else (false, e1)

/-- rate_limiter.c:138 `fixed_window_allow`: reset the count at window expiry,
then admit iff `window_count < rate * window_size`. -/
def fixed_window_allow (rate : Rat) (window_size : Int) (now : Int) (e : RateEntry) :
    Bool × RateEntry :=
  let e1 :=
    if now - e.window_start ≥ window_size then
      { e with window_count := 0, window_start := now }
    else e
  if ((e1.window_count : Rat)) < rate * ((window_size : Rat)) then
    (true, { e1 with window_count := e1.window_count + 1 })
  else (false, e1)

/-- rate_limiter.c:156 `rate_limiter_allow`: global second-wide cap first
(reset when the second changed, deny when exhausted), then the per-key
algorithm; on admission bump `allowed` and the global count, else `denied`. -/
def rate_limiter_allow (l : RateLimiterState) (key : String) (now : Int) :
    Bool × RateLimiterState :=
  let l1 :=
    if l.global_limit > 0 ∧ now ≠ l.global_window_start then
      { l with global_count := 0, global_window_start := now }
    else l
  if l1.global_limit > 0 ∧ l1.global_count ≥ l1.global_limit then
    (false, { l1 with denied := l1.denied + 1 })
  else
    let e := find_or_create_entry l1.burst now l1.entries key
    let r :=
      match l1.algorithm with
      | .token_bucket => token_bucket_allow l1.rate l1.burst now e
      | .sliding_window => sliding_window_allow l1.rate l1.window_size now e
      | .fixed_window => fixed_window_allow l1.rate l1.window_size now e
    let l2 := { l1 with entries := storeEntry l1.entries key r.2 }
    if r.1 then
      (true, { l2 with allowed := l2.allowed + 1, global_count := l2.global_count + 1 })
    else
      (false, { l2 with denied := l2.denied + 1 })

/-- Iterated `token_bucket_allow` on one entry, one call per timestamp in the
list (an arbitrary sequence of allow calls hitting the same key). -/
def token_bucket_allow_seq (rate burst : Rat) : List Int → RateEntry → RateEntry
  | [], e => e
  | now :: rest, e => token_bucket_allow_seq rate burst rest (token_bucket_allow rate burst now e).2

/-- Per-fd registration record, event_loop.h `event_data_t`, for the select()
backend: the interest mask bits and whether a callback was registered. -/
structure EventData where
  interest_read : Bool
  interest_write : Bool
  has_callback : Bool
deriving DecidableEq, Repr

/-- Reactor state of the select() backend, event_loop_select.c `struct
event_loop`: the registration table `fd_data[]` and `max_fd`. -/
structure EventLoop where
  max_fd : Int
  fd_data : Nat → Option EventData

/-- Outcome of the blocking `select()` call: interrupted by a signal (EINTR),
failed with another errno, or completed with the kernel readiness given by
the three oracles. -/
inductive SelectOutcome where
  | interrupted
  | failed
  | completed
deriving DecidableEq, Repr

/-- Number of bits `select()` leaves set for one fd: the read bit if read
interest was registered and the fd is readable, the write bit likewise, and
the error bit (registered unconditionally for every tracked fd). -/
def fdReadyBits (loop : EventLoop) (rr rw re : Nat → Bool) (fd : Nat) : Nat :=
  match loop.fd_data fd with
  | none => 0
  | some d =>
    (if d.interest_read && rr fd then 1 else 0) +
    (if d.interest_write && rw fd then 1 else 0) +
    (if re fd then 1 else 0)

/-- The value `select()` returns on success: the total number of set bits
across the read, write and error sets, over fds `0 .. max_fd`. -/
def selectReadyCount (loop : EventLoop) (rr rw re : Nat → Bool) : Nat :=
  ((List.range (loop.max_fd.toNat + 1)).map (fdReadyBits loop rr rw re)).sum

/-- Dispatch scan of `event_loop_run` (event_loop_select.c:168): walk fds in
order while `processed < ready`; a tracked fd with at least one readiness bit
and a registered callback gets exactly one callback invocation.  Returns the
number of callbacks dispatched.  (Callback side effects on the registration
table are outside this model: the table is read as it was when the scan
started.) -/
def dispatchLoop (loop : EventLoop) (rr rw re : Nat → Bool) (ready : Nat) :
    List Nat → Nat → Nat
  | [], processed => processed
  | fd :: rest, processed =>
    if processed < ready then
      match loop.fd_data fd with
      | none => dispatchLoop loop rr rw re ready rest processed
      | some d =>
        if ((d.interest_read && rr fd) || (d.interest_write && rw fd) || re fd)
            && d.has_callback then
          dispatchLoop loop rr rw re ready rest (processed + 1)
        else
          dispatchLoop loop rr rw re ready rest processed
    else processed

/-- event_loop_select.c:121 `event_loop_run`, returning the pair
(C return value, number of callbacks dispatched during the call).
With no tracked fds it sleeps and returns 0; `select()` interrupted by a
signal returns 0; another `select()` failure returns -1; otherwise it
dispatches and returns `ready` — the value `select()` returned — not the
number of callbacks dispatched. -/
def event_loop_run (loop : EventLoop) (timeout_ms : Int) (outcome : SelectOutcome)
    (rr rw re : Nat → Bool) : Int × Nat :=
  if loop.max_fd < 0 then (0, 0)
  else
    match outcome with
    | .interrupted => (0, 0)
    | .failed => (-1, 0)
    | .completed =>
      let ready := selectReadyCount loop rr rw re
      ((ready : Int), dispatchLoop loop rr rw re ready (List.range (loop.max_fd.toNat + 1)) 0)

/-- A one-fd reactor: fd 0 registered for read and write with a callback. -/
def loopRW : EventLoop :=
  { max_fd := 0
    fd_data := fun fd =>
      if fd = 0 then some { interest_read := true, interest_write := true, has_callback := true }
      else none }

/-- Concrete limiter used to witness the first-call admission claim. -/
def c10Limiter : RateLimiterState :=
  { algorithm := .token_bucket, rate := 100, burst := 10, window_size := 10
    entries := [], global_limit := 0, global_count := 0, global_window_start := 0
    allowed := 0, denied := 0 }

/-- Modelled from the spec: the sliding-window allow step as claim C8 words it —
continuity weight clamped to `[0, 1]`, carry `⌊w * window_count⌋`, reset
`window_start`, admit iff the (possibly carried) count is below
`rate * window_size`, incrementing on admission. -/
def sliding_window_claimed (rate : Rat) (window_size : Int) (now : Int) (e : RateEntry) :
    Bool × RateEntry :=
  let w : Rat :=
    max 0 (min 1 (1 - ((now - e.window_start - window_size : Int) : Rat) / ((window_size : Rat))))
  let e1 :=
    if now - e.window_start ≥ window_size then
      { e with window_count := Rat.floor ((e.window_count : Rat) * w), window_start := now }
    else e
  if ((e1.window_count : Rat)) < rate * ((window_size : Rat)) then
    (true, { e1 with window_count := e1.window_count + 1 })
  else (false, e1)

/-- Concrete entry used to witness the sliding-window characterization. -/
def c8Entry : RateEntry :=
  { tokens := 0, window_count := 7, window_start := 3, last_update := 0 }

/-- A live keep-alive session about to observe a clean client EOF: both fds
open, backend reference set, `keep_alive` still true. -/
def c2Conn : Connection :=
  { client_fd := 7, backend_fd := 8, has_backend := true, keep_alive := true
    request_forwarded := true }

/-- A roster with healthy backends of weights 2 and 1 and one unhealthy backend
of weight 5 (witness for the full-cycle dispatch-count theorem). -/
def lbW : LoadBalancer 3 :=
  { backends := fun i =>
      if i = 0 then
        { weight := 2, current_weight := 0, is_healthy := true, active_connections := 0 }
      else if i = 1 then
        { weight := 1, current_weight := 0, is_healthy := true, active_connections := 0 }
      else
        { weight := 5, current_weight := 0, is_healthy := false, active_connections := 0 }
    current_index := 0
    algorithm := .weighted_round_robin }

/-- A one-backend roster (healthy, weight 1). -/
def lb1 : LoadBalancer 1 :=
  { backends := fun _ =>
      { weight := 1, current_weight := 0, is_healthy := true, active_connections := 0 }
    current_index := 0
    algorithm := .round_robin }

lemma bumpHealthy_weight (b : Backend) : (bumpHealthy b).weight = b.weight := by
  unfold bumpHealthy; split <;> rfl

lemma bumpHealthy_is_healthy (b : Backend) : (bumpHealthy b).is_healthy = b.is_healthy := by
  unfold bumpHealthy; split <;> rfl

lemma bumpHealthy_current_weight (b : Backend) :
    (bumpHealthy b).current_weight =
      if b.is_healthy then b.current_weight + b.weight else b.current_weight := by
  unfold bumpHealthy; split <;> simp_all

lemma cleanupSlot_idem (now ttl : Int) (alive : Int → Bool) (c : PooledConnection) :
    cleanupSlot now ttl alive (cleanupSlot now ttl alive c).1 =
      ((cleanupSlot now ttl alive c).1, 0) := by
  unfold cleanupSlot
  by_cases h1 : c.state = PoolConnState.free ∧ c.fd ≥ 0
  · by_cases h2 : should_evict ttl now alive c = true
    · simp only [if_pos h1, if_pos h2]
      have : ¬(({ c with fd := -1 } : PooledConnection).state = PoolConnState.free ∧
          ({ c with fd := -1 } : PooledConnection).fd ≥ 0) := by
        intro h; exact absurd h.2 (by simp)
      simp [this]
    · simp [if_pos h1, h2]
  · simp [if_neg h1, h1]

lemma cleanupList_idem (now ttl : Int) (alive : Int → Bool) (l : List PooledConnection) :
    cleanupList now ttl alive (cleanupList now ttl alive l).1 =
      ((cleanupList now ttl alive l).1, 0) := by
  induction l with
  | nil => rfl
  | cons c rest ih =>
    simp only [cleanupList]
    rw [cleanupSlot_idem, ih]
    simp

/-- C9: conn_pool_cleanup is idempotent — a second sweep at the same clock
value with the same liveness results evicts nothing, returns 0, and leaves the
pool state unchanged. -/
theorem conn_pool_cleanup_idem (now : Int) (alive : Int → Bool) (pool : ConnPool) :
    conn_pool_cleanup now alive (conn_pool_cleanup now alive pool).2 =
      (0, (conn_pool_cleanup now alive pool).2) := by
  unfold conn_pool_cleanup
  simp only []
  rw [cleanupList_idem]
  simp

lemma token_bucket_allow_eq (rate burst : Rat) (now : Int) (e : RateEntry) :
    token_bucket_allow rate burst now e =
      if 1 ≤ min burst (e.tokens + ((now - e.last_update : Int) : Rat) * rate) then
        (true, { e with
          tokens := min burst (e.tokens + ((now - e.last_update : Int) : Rat) * rate) - 1,
          last_update := now })
      else
        (false, { e with
          tokens := min burst (e.tokens + ((now - e.last_update : Int) : Rat) * rate),
          last_update := now }) := by
  unfold token_bucket_allow
  simp only [ge_iff_le]
  by_cases h1 : e.tokens + ((now - e.last_update : Int) : Rat) * rate > burst
  · rw [if_pos h1, min_eq_left (le_of_lt h1)]
  · rw [if_neg h1, min_eq_right (not_lt.mp h1)]

lemma token_bucket_post_le (rate burst : Rat) (now : Int) (e : RateEntry) :
    (token_bucket_allow rate burst now e).2.tokens ≤ burst := by
  rw [token_bucket_allow_eq]
  split
  · simp only []
    have := min_le_left burst (e.tokens + ((now - e.last_update : Int) : Rat) * rate)
    linarith
  · simp only []
    exact min_le_left _ _

lemma token_bucket_seq_le (rate burst : Rat) (nows : List Int) (e : RateEntry)
    (he : e.tokens ≤ burst) :
    (token_bucket_allow_seq rate burst nows e).tokens ≤ burst := by
  induction nows generalizing e with
  | nil => simpa using he
  | cons now rest ih =>
    simp only [token_bucket_allow_seq]
    exact ih _ (token_bucket_post_le rate burst now e)

/-- C6: token-bucket invariant — starting from the entry `find_or_create_entry`
builds (a full bucket), `tokens` never exceeds `burst` after any sequence of
allow calls; and whenever a call admits, the resulting `tokens` is exactly the
post-refill clamped value minus 1. -/
theorem token_bucket_invariant (rate burst : Rat) (createTime : Int) (nows : List Int) :
    (token_bucket_allow_seq rate burst nows (freshEntry burst createTime)).tokens ≤ burst ∧
    (∀ (now : Int) (e : RateEntry), (token_bucket_allow rate burst now e).1 = true →
      (token_bucket_allow rate burst now e).2.tokens =
        min burst (e.tokens + ((now - e.last_update : Int) : Rat) * rate) - 1) := by
  constructor
  · exact token_bucket_seq_le rate burst nows _ (le_refl burst)
  · intro now e hadm
    rw [token_bucket_allow_eq] at hadm ⊢
    split at hadm
    · rw [if_pos (by assumption)]
    · simp at hadm

/-- C6 witness: a concrete run — rate 2, burst 5, three calls; the bound holds
and the admission decrement equation holds at the first call on the fresh
entry. -/
theorem token_bucket_invariant_witness :
    (token_bucket_allow_seq 2 5 [11, 12, 30] (freshEntry 5 10)).tokens ≤ 5 ∧
      (token_bucket_allow 2 5 11 (freshEntry 5 10)).1 = true ∧
      (token_bucket_allow 2 5 11 (freshEntry 5 10)).2.tokens =
        min 5 ((freshEntry 5 10).tokens + ((11 - (freshEntry 5 10).last_update : Int) : Rat) * 2) - 1 := by
  have hadm : (token_bucket_allow 2 5 11 (freshEntry 5 10)).1 = true := by
    rw [token_bucket_allow_eq]
    norm_num [freshEntry, min_def]
  exact ⟨(token_bucket_invariant 2 5 10 [11, 12, 30]).1, hadm,
    (token_bucket_invariant 2 5 10 [11, 12, 30]).2 11 (freshEntry 5 10) hadm⟩

/-- C8: the sliding-window allow step behaves exactly as the claim describes —
with a positive window size and a non-negative entry count, the code's
below-only clamp and truncating cast coincide with the claim's `[0, 1]` clamp
and floor, and admission is exactly `window_count < rate * window_size` with
an increment on admission. -/
theorem sliding_window_matches_claim (rate : Rat) (wsize now : Int) (e : RateEntry)
    (hwpos : 0 < wsize) (hcnt : 0 ≤ e.window_count) :
    sliding_window_allow rate wsize now e = sliding_window_claimed rate wsize now e := by
  unfold sliding_window_allow sliding_window_claimed
  simp only [ge_iff_le]
  by_cases h : wsize ≤ now - e.window_start
  · rw [if_pos h, if_pos h]
    set q : Rat := 1 - ((now - e.window_start - wsize : Int) : Rat) / ((wsize : Rat)) with hqdef
    have hd : (0 : Rat) ≤ ((now - e.window_start - wsize : Int) : Rat) := by
      exact_mod_cast (by omega : (0 : Int) ≤ now - e.window_start - wsize)
    have hW : (0 : Rat) < ((wsize : Rat)) := by exact_mod_cast hwpos
    have hle1 : q ≤ 1 := by
      have := div_nonneg hd (le_of_lt hW)
      rw [hqdef]; linarith
    rw [min_eq_right hle1]
    have hmax : max (0 : Rat) q = if q < 0 then 0 else q := by
      rcases lt_or_le q 0 with hlt | hge
      · rw [if_pos hlt, max_eq_left (le_of_lt hlt)]
      · rw [if_neg (not_lt.mpr hge), max_eq_right hge]
    rw [hmax]
    have hwnn : (0 : Rat) ≤ (if q < 0 then 0 else q) := by
      split
      · exact le_refl 0
      · exact le_of_not_lt (by assumption)
    have hprod : (0 : Rat) ≤ (e.window_count : Rat) * (if q < 0 then 0 else q) :=
      mul_nonneg (by exact_mod_cast hcnt) hwnn
    have htr : ratTrunc ((e.window_count : Rat) * (if q < 0 then 0 else q)) =
        Rat.floor ((e.window_count : Rat) * (if q < 0 then 0 else q)) := by
      unfold ratTrunc
      rw [if_neg (not_lt.mpr hprod)]
    rw [htr]
  · rw [if_neg h, if_neg h]

/-- C8 witness: a concrete expired-window call (window size 10, start 3,
now 25, 7 requests carried) where the characterization applies. -/
theorem sliding_window_matches_claim_witness :
    (0 : Int) < 10 ∧ (0 : Int) ≤ c8Entry.window_count ∧
      sliding_window_allow 2 10 25 c8Entry = sliding_window_claimed 2 10 25 c8Entry :=
  ⟨by norm_num, by norm_num [c8Entry],
    sliding_window_matches_claim 2 10 25 c8Entry (by norm_num) (by norm_num [c8Entry])⟩

lemma leadMatch_iff (needle hay : List Char) :
    leadMatch needle hay = true ↔ ∃ r, hay = needle ++ r := by
  induction needle generalizing hay with
  | nil => simp [leadMatch]
  | cons a as ih =>
    cases hay with
    | nil => simp [leadMatch]
    | cons b bs =>
      simp only [leadMatch, Bool.and_eq_true, beq_iff_eq, ih, List.cons_append,
        List.cons.injEq]
      constructor
      · rintro ⟨h1, r, h2⟩
        exact ⟨r, h1.symm, h2⟩
      · rintro ⟨r, h1, h2⟩
        exact ⟨h1.symm, r, h2⟩

lemma strstrFound_iff (needle hay : List Char) :
    strstrFound needle hay = true ↔ ∃ l r, hay = l ++ needle ++ r := by
  induction hay with
  | nil =>
    simp only [strstrFound, leadMatch_iff]
    constructor
    · rintro ⟨r, hr⟩
      exact ⟨[], r, by simpa using hr⟩
    · rintro ⟨l, r, hr⟩
      refine ⟨r, ?_⟩
      rcases List.append_eq_nil.mp (List.append_eq_nil.mp hr.symm).1 with ⟨hl, hn⟩
      simp [hn, (List.append_eq_nil.mp hr.symm).2]
  | cons c rest ih =>
    simp only [strstrFound, Bool.or_eq_true, leadMatch_iff, ih]
    constructor
    · rintro (⟨r, hr⟩ | ⟨l, r, hr⟩)
      · exact ⟨[], r, by simpa using hr⟩
      · exact ⟨c :: l, r, by simp [hr]⟩
    · rintro ⟨l, r, hr⟩
      cases l with
      | nil => exact Or.inl ⟨r, by simpa using hr⟩
      | cons x xs =>
        right
        simp only [List.cons_append, List.cons.injEq] at hr
        exact ⟨xs, r, hr.2⟩

/-- C3 counterexample: the HTTP/1.1 request whose header token is spelled
`connection: CLOSE` — the claim says the keep-alive decision is false there,
but `check_keep_alive` matches case-sensitively and returns true. -/
theorem check_keep_alive_case_cex :
    check_keep_alive c3Request = true ∧ keep_alive_claimed c3Request = false := by
  constructor <;> decide

/-- C3 amended: the keep-alive decision with case-SENSITIVE matching —
HTTP/1.1 requests are keep-alive unless the exact bytes `Connection: close`
occur; otherwise the decision is keep-alive exactly when the exact bytes
`Connection: keep-alive` or `Connection: Keep-Alive` occur. -/
theorem check_keep_alive_spec (request : List Char) :
    check_keep_alive request = true ↔
      ((∃ l r, request = l ++ "HTTP/1.1".toList ++ r) ∧
        ¬(∃ l r, request = l ++ "Connection: close".toList ++ r)) ∨
      (¬(∃ l r, request = l ++ "HTTP/1.1".toList ++ r) ∧
        ((∃ l r, request = l ++ "Connection: keep-alive".toList ++ r) ∨
         (∃ l r, request = l ++ "Connection: Keep-Alive".toList ++ r))) := by
  unfold check_keep_alive
  rw [← strstrFound_iff "HTTP/1.1".toList request,
    ← strstrFound_iff "Connection: close".toList request,
    ← strstrFound_iff "Connection: keep-alive".toList request,
    ← strstrFound_iff "Connection: Keep-Alive".toList request]
  split_ifs with hA hC hK
  · constructor
    · intro h; exact absurd h (by simp)
    · rintro (⟨-, hC'⟩ | ⟨hA', -⟩)
      · exact (hC' hC).elim
      · exact (hA' hA).elim
  · constructor
    · intro _; exact Or.inl ⟨hA, hC⟩
    · intro _; rfl
  · simp only [Bool.or_eq_true] at hK
    constructor
    · intro _; exact Or.inr ⟨hA, hK⟩
    · intro _; rfl
  · simp only [Bool.or_eq_true] at hK
    constructor
    · intro h; exact absurd h (by simp)
    · rintro (⟨hA', -⟩ | ⟨-, hk⟩)
      · exact (hA hA').elim
      · exact (hK hk).elim

/-- C10: in token-bucket mode with `burst >= 1`, the first allow call for a key
with no entry yet is admitted whenever it passes the global cap, because the
fresh entry starts with a full bucket. -/
theorem first_call_admitted (l : RateLimiterState) (key : String) (now : Int)
    (halg : l.algorithm = RateLimitAlgorithm.token_bucket)
    (hburst : 1 ≤ l.burst)
    (hnew : lookupEntry l.entries key = none)
    (hglobal : l.global_limit ≤ 0 ∨ now ≠ l.global_window_start ∨
      l.global_count < l.global_limit) :
    (rate_limiter_allow l key now).1 = true := by
  unfold rate_limiter_allow
  have hfresh : ∀ (b : Rat), find_or_create_entry b now l.entries key = freshEntry b now := by
    intro b
    unfold find_or_create_entry
    rw [hnew]
  have htb : (token_bucket_allow l.rate l.burst now (freshEntry l.burst now)).1 = true := by
    rw [token_bucket_allow_eq]
    simp only [freshEntry, sub_self, Int.cast_zero, zero_mul, add_zero, min_self]
    rw [if_pos hburst]
  by_cases hreset : l.global_limit > 0 ∧ now ≠ l.global_window_start
  · simp only [if_pos hreset]
    have hgate : ¬(l.global_limit > 0 ∧ (0 : Int) ≥ l.global_limit) := by
      rintro ⟨hpos, hge⟩; omega
    simp only [if_neg hgate, hfresh, halg, htb, if_pos]
  · simp only [if_neg hreset]
    by_cases hgate : l.global_limit > 0 ∧ l.global_count ≥ l.global_limit
    · exfalso
      rcases hglobal with h | h | h
      · omega
      · exact hreset ⟨hgate.1, h⟩
      · omega
    · simp only [if_neg hgate, hfresh, halg, htb, if_pos]

/-- C10 witness: the concrete limiter admits the first call for an unseen key. -/
theorem first_call_admitted_witness :
    c10Limiter.algorithm = RateLimitAlgorithm.token_bucket ∧ 1 ≤ c10Limiter.burst ∧
      lookupEntry c10Limiter.entries "203.0.113.7" = none ∧
      (rate_limiter_allow c10Limiter "203.0.113.7" 1000).1 = true :=
  ⟨rfl, by norm_num [c10Limiter], rfl,
    first_call_admitted c10Limiter "203.0.113.7" 1000 rfl (by norm_num [c10Limiter]) rfl
      (Or.inl (by norm_num [c10Limiter]))⟩

/-- C2: evaluation at the failing input — a session with `keep_alive` set whose
client read returns 0 (clean client EOF).  `on_client_event` force-clears
`keep_alive` before freeing, so the backend fd is closed, not pooled; the
second conjunct shows that `free_connection` run on the same session state
without that clearing would have pooled the fd. -/
theorem client_eof_closes_backend :
    on_client_event c2Conn { read := true, write := false, error := false, hup := false } 0 [] =
      SessionStep.freed BackendDisposition.closedNotPooled ∧
    free_connection_backend_fate c2Conn = BackendDisposition.pooled := by
  constructor <;> rfl

lemma dispatchLoop_le (loop : EventLoop) (rr rw re : Nat → Bool) (ready : Nat)
    (l : List Nat) (p : Nat) (hp : p ≤ ready) :
    dispatchLoop loop rr rw re ready l p ≤ ready := by
  induction l generalizing p with
  | nil => simpa [dispatchLoop] using hp
  | cons fd rest ih =>
    unfold dispatchLoop
    split
    case isTrue hlt =>
      rcases hd : loop.fd_data fd with _ | d
      · exact ih p hp
      · show (if ((d.interest_read && rr fd || d.interest_write && rw fd || re fd)
              && d.has_callback) = true then
            dispatchLoop loop rr rw re ready rest (p + 1)
          else dispatchLoop loop rr rw re ready rest p) ≤ ready
        split
        · exact ih (p + 1) hlt
        · exact ih p hp
    case isFalse hge => exact hp

/-- C7 counterexample: one fd registered for read and write, both ready, no
exceptional condition.  `select()` reports two ready bits, one callback is
dispatched, and `event_loop_run` returns 2 — not the dispatch count 1. -/
theorem run_return_vs_dispatch_cex :
    event_loop_run loopRW 1000 .completed (fun _ => true) (fun _ => true) (fun _ => false)
        = (2, 1) ∧
      (event_loop_run loopRW 1000 .completed (fun _ => true) (fun _ => true) (fun _ => false)).1 ≠
        ((event_loop_run loopRW 1000 .completed (fun _ => true) (fun _ => true)
          (fun _ => false)).2 : Int) := by
  constructor <;> decide

/-- C7 amended: `event_loop_run` propagates the `select()` ready count — it
returns the total number of ready descriptor bits (which bounds, but need not
equal, the number of callbacks dispatched), and a signal interrupt (EINTR) is
returned as 0 with no callback dispatched. -/
theorem run_returns_select_count (loop : EventLoop) (timeout_ms : Int) (rr rw re : Nat → Bool) :
    event_loop_run loop timeout_ms .interrupted rr rw re = (0, 0) ∧
    (event_loop_run loop timeout_ms .completed rr rw re).2 ≤ selectReadyCount loop rr rw re ∧
    (0 ≤ loop.max_fd →
      (event_loop_run loop timeout_ms .completed rr rw re).1 =
        (selectReadyCount loop rr rw re : Int)) := by
  refine ⟨?_, ?_, ?_⟩
  · unfold event_loop_run
    split <;> rfl
  · unfold event_loop_run
    split
    · exact Nat.zero_le _
    · exact dispatchLoop_le loop rr rw re _ _ 0 (Nat.zero_le _)
  · intro h
    unfold event_loop_run
    rw [if_neg (not_lt.mpr h)]

/-- C7 witness: the amended statement instantiated at the concrete one-fd
reactor with everything readable and writable. -/
theorem run_returns_select_count_witness :
    event_loop_run loopRW 7 .interrupted (fun _ => true) (fun _ => true) (fun _ => false)
        = (0, 0) ∧
    (event_loop_run loopRW 7 .completed (fun _ => true) (fun _ => true) (fun _ => false)).2 ≤
      selectReadyCount loopRW (fun _ => true) (fun _ => true) (fun _ => false) ∧
    (event_loop_run loopRW 7 .completed (fun _ => true) (fun _ => true) (fun _ => false)).1 =
      (selectReadyCount loopRW (fun _ => true) (fun _ => true) (fun _ => false) : Int) := by
  have h := run_returns_select_count loopRW 7 (fun _ => true) (fun _ => true) (fun _ => false)
  exact ⟨h.1, h.2.1, h.2.2 (by decide)⟩

/-- C5 counterexample: on an empty roster every selection policy runs into the
modulo-by-zero of the round-robin index arithmetic (undefined behaviour) — no
policy returns a graceful no-backend result. -/
theorem empty_roster_divzero_cex :
    select_backend (lbEmpty .round_robin) [] = .error "modulo by zero: num_backends == 0" ∧
    select_backend (lbEmpty .weighted_round_robin) [] =
      .error "modulo by zero: num_backends == 0" ∧
    select_backend (lbEmpty .least_connections) [] =
      .error "modulo by zero: num_backends == 0" ∧
    select_backend (lbEmpty .ip_hash) [50, 48, 51] =
      .error "modulo by zero: num_backends == 0" := by
  refine ⟨rfl, rfl, rfl, rfl⟩

lemma select_round_robin_ok {n : Nat} (lb : LoadBalancer n) (h : 0 < n) :
    ∃ i lb', select_round_robin lb = .ok (i, lb') := by
  unfold select_round_robin
  rw [dif_pos h]
  rcases hr : rrLoop n h lb.backends lb.current_index n with ⟨found, ci⟩
  cases found with
  | none => exact ⟨_, _, rfl⟩
  | some i => exact ⟨_, _, rfl⟩

/-- C5 amended: the selection functions assume a non-empty roster (the program
exits at startup when no backend parses); for every non-empty roster, every
policy returns a backend — the modulo is never by zero and there is no
no-backend result. -/
theorem select_backend_total {n : Nat} (lb : LoadBalancer n) (ip : List Nat) (h : 0 < n) :
    ∃ i lb', select_backend lb ip = .ok (i, lb') := by
  unfold select_backend
  cases lb.algorithm
  case round_robin => exact select_round_robin_ok lb h
  case weighted_round_robin =>
    show ∃ i lb', select_weighted_round_robin lb = Except.ok (i, lb')
    unfold select_weighted_round_robin
    rcases hb : (List.finRange n).foldl wrrStep (lb.backends, 0, none) with ⟨acc, total, _ | bi⟩
    · exact select_round_robin_ok _ h
    · exact ⟨_, _, rfl⟩
  case least_connections =>
    show ∃ i lb', select_least_connections lb = Except.ok (i, lb')
    unfold select_least_connections
    rcases hb : (List.finRange n).foldl (lcStep lb.backends) (2147483647, none) with ⟨sc, _ | bi⟩
    · exact select_round_robin_ok _ h
    · exact ⟨_, _, rfl⟩
  case ip_hash =>
    show ∃ i lb', select_ip_hash lb ip = Except.ok (i, lb')
    unfold select_ip_hash
    rw [dif_pos h]
    rcases hm : ipHashLoop n h lb.backends (ipHashVal ip % n) n with _ | i
    · exact ⟨_, _, rfl⟩
    · exact ⟨_, _, rfl⟩

/-- C5 witness: the amended statement at the concrete one-backend roster. -/
theorem select_backend_total_witness :
    0 < 1 ∧ ∃ i lb', select_backend lb1 [] = .ok (i, lb') :=
  ⟨by decide, select_backend_total lb1 [] (by decide)⟩

/-- C4 counterexample: with healthy weights 3, 2, 1 the first six smooth-WRR
selections are A, B, A, C, B, A (indices 0, 1, 0, 2, 1, 0) — not the claimed
A, A, B, A, B, C. -/
theorem wrr_sequence_cex :
    runSelections (wrrRun lbABC 6) = some [0, 1, 0, 2, 1, 0] ∧
      ([0, 1, 0, 2, 1, 0] : List (Fin 3)) ≠ [0, 0, 1, 0, 1, 2] := by
  constructor <;> decide

/-- C4 amended: the first six selections for healthy weights 3, 2, 1 starting
from all-zero current weights are exactly A, B, A, C, B, A — still interleaved
and proportional (3 As, 2 Bs, 1 C), but a different order than claimed. -/
theorem wrr_sequence_abc :
    runSelections (wrrRun lbABC 6) = some [0, 1, 0, 2, 1, 0] := by
  decide

lemma wrrStep_unhealthy {n : Nat} (st : (Fin n → Backend) × Int × Option (Fin n)) (a : Fin n)
    (h : ¬(st.1 a).is_healthy = true) : wrrStep st a = st := by
  unfold wrrStep
  simp [h]

lemma wrrStep_acc {n : Nat} (st : (Fin n → Backend) × Int × Option (Fin n)) (a j : Fin n) :
    (wrrStep st a).1 j = if j = a then bumpHealthy (st.1 j) else st.1 j := by
  by_cases h : (st.1 a).is_healthy = true
  · by_cases hj : j = a
    · subst hj
      simp [wrrStep, bumpHealthy, h]
    · simp [wrrStep, h, Function.update_noteq hj, hj]
  · rw [wrrStep_unhealthy st a h]
    by_cases hj : j = a
    · subst hj
      simp [bumpHealthy, h]
    · simp [hj]

lemma wrrStep_acc_healthy {n : Nat} (st : (Fin n → Backend) × Int × Option (Fin n))
    (a j : Fin n) : ((wrrStep st a).1 j).is_healthy = (st.1 j).is_healthy := by
  rw [wrrStep_acc]
  split
  · rw [bumpHealthy_is_healthy]
  · rfl

lemma wrrStep_total {n : Nat} (st : (Fin n → Backend) × Int × Option (Fin n)) (a : Fin n) :
    (wrrStep st a).2.1 = st.2.1 + (if (st.1 a).is_healthy then (st.1 a).weight else 0) := by
  by_cases h : (st.1 a).is_healthy = true
  · simp [wrrStep, h]
  · rw [wrrStep_unhealthy st a h]
    simp [h]

lemma wrrStep_best_none {n : Nat} (st : (Fin n → Backend) × Int × Option (Fin n)) (a : Fin n)
    (h : (st.1 a).is_healthy = true) (hb : st.2.2 = none) :
    (wrrStep st a).2.2 = some a := by
  unfold wrrStep
  simp [h, hb]

lemma wrrStep_best_some {n : Nat} (st : (Fin n → Backend) × Int × Option (Fin n)) (a bi : Fin n)
    (h : (st.1 a).is_healthy = true) (hb : st.2.2 = some bi) (hne : bi ≠ a) :
    (wrrStep st a).2.2 =
      if (bumpHealthy (st.1 a)).current_weight > (st.1 bi).current_weight then some a
      else some bi := by
  unfold wrrStep
  simp [h, hb, bumpHealthy, Function.update_noteq hne]

lemma wrrFold_acc {n : Nat} (l : List (Fin n)) (hl : l.Nodup)
    (st : (Fin n → Backend) × Int × Option (Fin n)) (j : Fin n) :
    (l.foldl wrrStep st).1 j = if j ∈ l then bumpHealthy (st.1 j) else st.1 j := by
  revert hl
  induction l generalizing st with
  | nil =>
    intro hl
    simp
  | cons a l' ih =>
    intro hl
    have hal' : a ∉ l' := (List.nodup_cons.mp hl).1
    have hl' : l'.Nodup := (List.nodup_cons.mp hl).2
    rw [List.foldl_cons, ih (wrrStep st a) hl', wrrStep_acc]
    by_cases hj : j = a
    · subst hj
      simp [hal']
    · simp [hj, List.mem_cons]

lemma wrrFold_total {n : Nat} (l : List (Fin n)) (hl : l.Nodup)
    (st : (Fin n → Backend) × Int × Option (Fin n)) :
    (l.foldl wrrStep st).2.1 =
      st.2.1 + (l.map (fun i => if (st.1 i).is_healthy then (st.1 i).weight else 0)).sum := by
  revert hl
  induction l generalizing st with
  | nil =>
    intro hl
    simp
  | cons a l' ih =>
    intro hl
    have hal' : a ∉ l' := (List.nodup_cons.mp hl).1
    have hl' : l'.Nodup := (List.nodup_cons.mp hl).2
    rw [List.foldl_cons, ih (wrrStep st a) hl']
    have hmap : l'.map
          (fun i => if ((wrrStep st a).1 i).is_healthy then ((wrrStep st a).1 i).weight else 0) =
        l'.map (fun i => if (st.1 i).is_healthy then (st.1 i).weight else 0) := by
      apply List.map_congr_left
      intro i hi
      have hia : ¬ i = a := fun he => hal' (he ▸ hi)
      rw [wrrStep_acc, if_neg hia]
    rw [hmap, wrrStep_total, List.map_cons, List.sum_cons]
    ring

lemma wrrFold_best {n : Nat} (l : List (Fin n)) (hl : l.Nodup)
    (st : (Fin n → Backend) × Int × Option (Fin n))
    (hb0 : ∀ bi, st.2.2 = some bi → bi ∉ l ∧ (st.1 bi).is_healthy = true) :
    ((l.foldl wrrStep st).2.2 = none →
      st.2.2 = none ∧ ∀ i ∈ l, ¬(st.1 i).is_healthy = true)
    ∧ (∀ j, (l.foldl wrrStep st).2.2 = some j →
        (st.1 j).is_healthy = true
        ∧ (∀ i ∈ l, (st.1 i).is_healthy = true →
            ((l.foldl wrrStep st).1 i).current_weight ≤
              ((l.foldl wrrStep st).1 j).current_weight)
        ∧ (∀ bi, st.2.2 = some bi →
            ((l.foldl wrrStep st).1 bi).current_weight ≤
              ((l.foldl wrrStep st).1 j).current_weight)) := by
  revert hl hb0
  induction l generalizing st with
  | nil =>
    intro hl hb0
    constructor
    · intro hnone
      exact ⟨hnone, by simp⟩
    · intro j hj
      have hj' : st.2.2 = some j := hj
      refine ⟨(hb0 j hj').2, by simp, ?_⟩
      intro bi hbi
      rw [hj'] at hbi
      rw [Option.some.inj hbi]
  | cons a l' ih =>
    intro hl hb0
    have hal' : a ∉ l' := (List.nodup_cons.mp hl).1
    have hl' : l'.Nodup := (List.nodup_cons.mp hl).2
    by_cases h : (st.1 a).is_healthy = true
    · -- backend a is healthy: it enters the running-best comparison
      have hacc1 : ∀ j, (wrrStep st a).1 j = if j = a then bumpHealthy (st.1 j) else st.1 j :=
        wrrStep_acc st a
      have haccA : (wrrStep st a).1 a = bumpHealthy (st.1 a) := by rw [hacc1]; simp
      rcases hb : st.2.2 with _ | bi0
      · -- no previous best: the new best is a
        have hbest1 : (wrrStep st a).2.2 = some a := wrrStep_best_none st a h hb
        have hb0' : ∀ bi', (wrrStep st a).2.2 = some bi' →
            bi' ∉ l' ∧ ((wrrStep st a).1 bi').is_healthy = true := by
          intro bi' hbi'
          rw [hbest1] at hbi'
          rw [← Option.some.inj hbi']
          refine ⟨hal', ?_⟩
          rw [wrrStep_acc_healthy]
          exact h
        obtain ⟨ihn, ihs⟩ := ih (wrrStep st a) hl' hb0'
        rw [List.foldl_cons]
        constructor
        · intro hnone
          exact absurd (ihn hnone).1 (by rw [hbest1]; simp)
        · intro j hj
          obtain ⟨hhj, hmax, hbc⟩ := ihs j hj
          rw [wrrStep_acc_healthy] at hhj
          refine ⟨hhj, ?_, ?_⟩
          · intro i hi hhi
            rcases List.mem_cons.mp hi with rfl | hi'
            · exact hbc i hbest1
            · refine hmax i hi' ?_
              rw [wrrStep_acc_healthy]
              exact hhi
          · intro bi hbi
            exact absurd hbi (by simp)
      · -- previous best bi0: compare the refreshed a against it
        have hmem0 := hb0 bi0 hb
        have hbi0a : bi0 ≠ a := fun he => hmem0.1 (he ▸ List.mem_cons_self a l')
        have hbi0l' : bi0 ∉ l' := fun hm => hmem0.1 (List.mem_cons_of_mem a hm)
        have hbest1 : (wrrStep st a).2.2 =
            if (bumpHealthy (st.1 a)).current_weight > (st.1 bi0).current_weight then some a
            else some bi0 := wrrStep_best_some st a bi0 h hb hbi0a
        have haccBi0 : (wrrStep st a).1 bi0 = st.1 bi0 := by
          rw [hacc1, if_neg hbi0a]
        have hrA : (l'.foldl wrrStep (wrrStep st a)).1 a = bumpHealthy (st.1 a) := by
          rw [wrrFold_acc l' hl', if_neg hal', haccA]
        have hrBi0 : (l'.foldl wrrStep (wrrStep st a)).1 bi0 = st.1 bi0 := by
          rw [wrrFold_acc l' hl', if_neg hbi0l', haccBi0]
        by_cases hcmp : (bumpHealthy (st.1 a)).current_weight > (st.1 bi0).current_weight
        · have hbest1' : (wrrStep st a).2.2 = some a := by rw [hbest1, if_pos hcmp]
          have hb0' : ∀ bi', (wrrStep st a).2.2 = some bi' →
              bi' ∉ l' ∧ ((wrrStep st a).1 bi').is_healthy = true := by
            intro bi' hbi'
            rw [hbest1'] at hbi'
            rw [← Option.some.inj hbi']
            refine ⟨hal', ?_⟩
            rw [wrrStep_acc_healthy]
            exact h
          obtain ⟨ihn, ihs⟩ := ih (wrrStep st a) hl' hb0'
          rw [List.foldl_cons]
          constructor
          · intro hnone
            exact absurd (ihn hnone).1 (by rw [hbest1']; simp)
          · intro j hj
            obtain ⟨hhj, hmax, hbc⟩ := ihs j hj
            rw [wrrStep_acc_healthy] at hhj
            refine ⟨hhj, ?_, ?_⟩
            · intro i hi hhi
              rcases List.mem_cons.mp hi with rfl | hi'
              · exact hbc i hbest1'
              · refine hmax i hi' ?_
                rw [wrrStep_acc_healthy]
                exact hhi
            · intro bi hbi
              rw [← Option.some.inj hbi]
              calc ((l'.foldl wrrStep (wrrStep st a)).1 bi0).current_weight
                  = (st.1 bi0).current_weight := by rw [hrBi0]
                _ ≤ (bumpHealthy (st.1 a)).current_weight := le_of_lt hcmp
                _ = ((l'.foldl wrrStep (wrrStep st a)).1 a).current_weight := by rw [hrA]
                _ ≤ _ := hbc a hbest1'
        · have hbest1' : (wrrStep st a).2.2 = some bi0 := by rw [hbest1, if_neg hcmp]
          have hb0' : ∀ bi', (wrrStep st a).2.2 = some bi' →
              bi' ∉ l' ∧ ((wrrStep st a).1 bi').is_healthy = true := by
            intro bi' hbi'
            rw [hbest1'] at hbi'
            rw [← Option.some.inj hbi']
            refine ⟨hbi0l', ?_⟩
            rw [haccBi0]
            exact hmem0.2
          obtain ⟨ihn, ihs⟩ := ih (wrrStep st a) hl' hb0'
          rw [List.foldl_cons]
          constructor
          · intro hnone
            exact absurd (ihn hnone).1 (by rw [hbest1']; simp)
          · intro j hj
            obtain ⟨hhj, hmax, hbc⟩ := ihs j hj
            rw [wrrStep_acc_healthy] at hhj
            refine ⟨hhj, ?_, ?_⟩
            · intro i hi hhi
              rcases List.mem_cons.mp hi with rfl | hi'
              · calc ((l'.foldl wrrStep (wrrStep st i)).1 i).current_weight
                    = (bumpHealthy (st.1 i)).current_weight := by rw [hrA]
                  _ ≤ (st.1 bi0).current_weight := le_of_not_lt hcmp
                  _ = ((l'.foldl wrrStep (wrrStep st i)).1 bi0).current_weight := by rw [hrBi0]
                  _ ≤ _ := hbc bi0 hbest1'
              · refine hmax i hi' ?_
                rw [wrrStep_acc_healthy]
                exact hhi
            · intro bi hbi
              rw [← Option.some.inj hbi]
              exact hbc bi0 hbest1'
    · -- backend a unhealthy: the step is a no-op
      have hstep : wrrStep st a = st := wrrStep_unhealthy st a h
      have hb0' : ∀ bi, st.2.2 = some bi → bi ∉ l' ∧ (st.1 bi).is_healthy = true := by
        intro bi hbi
        exact ⟨fun hm => (hb0 bi hbi).1 (List.mem_cons_of_mem a hm), (hb0 bi hbi).2⟩
      obtain ⟨ihn, ihs⟩ := ih st hl' hb0'
      rw [List.foldl_cons, hstep]
      constructor
      · intro hnone
        obtain ⟨hbn, hall⟩ := ihn hnone
        refine ⟨hbn, ?_⟩
        intro i hi
        rcases List.mem_cons.mp hi with rfl | hi'
        · exact h
        · exact hall i hi'
      · intro j hj
        obtain ⟨hhj, hmax, hbc⟩ := ihs j hj
        refine ⟨hhj, ?_, hbc⟩
        intro i hi hhi
        rcases List.mem_cons.mp hi with rfl | hi'
        · exact absurd hhi h
        · exact hmax i hi' hhi

lemma select_wrr_spec {n : Nat} (lb : LoadBalancer n)
    (hne : ∃ i, (lb.backends i).is_healthy = true) :
    ∃ j lb', select_weighted_round_robin lb = Except.ok (j, lb') ∧
      (lb.backends j).is_healthy = true ∧
      lb'.current_index = lb.current_index ∧
      lb'.algorithm = lb.algorithm ∧
      (∀ i, (lb'.backends i).weight = (lb.backends i).weight) ∧
      (∀ i, (lb'.backends i).is_healthy = (lb.backends i).is_healthy) ∧
      (∀ i, (lb'.backends i).current_weight =
        (if (lb.backends i).is_healthy then
            (lb.backends i).current_weight + (lb.backends i).weight
          else (lb.backends i).current_weight)
          - (if i = j then healthyTotalWeight lb.backends else 0)) ∧
      (∀ i, (lb.backends i).is_healthy = true →
        (lb.backends i).current_weight + (lb.backends i).weight ≤
          (lb.backends j).current_weight + (lb.backends j).weight) := by
  have hnd := List.nodup_finRange n
  have hb0 : ∀ bi, ((lb.backends, (0 : Int), (none : Option (Fin n)))).2.2 = some bi →
      bi ∉ List.finRange n ∧
        (((lb.backends, (0 : Int), (none : Option (Fin n)))).1 bi).is_healthy = true :=
    fun bi hbi => absurd hbi (by simp)
  obtain ⟨hnone, hsome⟩ := wrrFold_best (List.finRange n) hnd (lb.backends, 0, none) hb0
  have hacc : ∀ i, ((List.finRange n).foldl wrrStep (lb.backends, 0, none)).1 i
      = bumpHealthy (lb.backends i) := by
    intro i
    rw [wrrFold_acc (List.finRange n) hnd (lb.backends, 0, none) i,
      if_pos (List.mem_finRange i)]
  have htotal : ((List.finRange n).foldl wrrStep (lb.backends, 0, none)).2.1
      = healthyTotalWeight lb.backends := by
    rw [wrrFold_total (List.finRange n) hnd (lb.backends, 0, none)]
    unfold healthyTotalWeight
    rw [Fin.sum_univ_def]
    simp
  rcases hr : (List.finRange n).foldl wrrStep (lb.backends, 0, none) with ⟨acc, total, best⟩
  rw [hr] at hnone hsome hacc htotal
  cases best with
  | none =>
    exfalso
    obtain ⟨-, hall⟩ := hnone rfl
    obtain ⟨i0, h0⟩ := hne
    exact hall i0 (List.mem_finRange i0) h0
  | some bi =>
    obtain ⟨hhj, hmax, -⟩ := hsome bi rfl
    have hhj' : (lb.backends bi).is_healthy = true := hhj
    have hacc' : ∀ i, acc i = bumpHealthy (lb.backends i) := hacc
    have htotal' : total = healthyTotalWeight lb.backends := htotal
    refine ⟨bi, { lb with backends := Function.update acc bi { acc bi with current_weight := (acc bi).current_weight - total } }, ?_, hhj', rfl, rfl, ?_, ?_, ?_, ?_⟩
    · unfold select_weighted_round_robin
      rw [hr]
    · intro i
      by_cases hi : i = bi
      · subst hi
        show (Function.update acc i
          { acc i with current_weight := (acc i).current_weight - total } i).weight = _
        rw [Function.update_same]
        show (acc i).weight = _
        rw [hacc' i, bumpHealthy_weight]
      · show (Function.update acc bi
          { acc bi with current_weight := (acc bi).current_weight - total } i).weight = _
        rw [Function.update_noteq hi]
        rw [hacc' i, bumpHealthy_weight]
    · intro i
      by_cases hi : i = bi
      · subst hi
        show (Function.update acc i
          { acc i with current_weight := (acc i).current_weight - total } i).is_healthy = _
        rw [Function.update_same]
        show (acc i).is_healthy = _
        rw [hacc' i, bumpHealthy_is_healthy]
      · show (Function.update acc bi
          { acc bi with current_weight := (acc bi).current_weight - total } i).is_healthy = _
        rw [Function.update_noteq hi]
        rw [hacc' i, bumpHealthy_is_healthy]
    · intro i
      by_cases hi : i = bi
      · subst hi
        show (Function.update acc i
          { acc i with current_weight := (acc i).current_weight - total } i).current_weight = _
        rw [Function.update_same]
        show (acc i).current_weight - total = _
        rw [hacc' i, bumpHealthy_current_weight, htotal', if_pos rfl, if_pos hhj']
      · show (Function.update acc bi
          { acc bi with current_weight := (acc bi).current_weight - total } i).current_weight = _
        rw [Function.update_noteq hi]
        rw [hacc' i, bumpHealthy_current_weight, if_neg hi, sub_zero]
    · intro i hi
      have h5 : (acc i).current_weight ≤ (acc bi).current_weight :=
        hmax i (List.mem_finRange i) hi
      rw [hacc' i, hacc' bi, bumpHealthy_current_weight, bumpHealthy_current_weight,
        if_pos hi, if_pos hhj'] at h5
      exact h5

lemma healthyTotal_pos {n : Nat} (backends : Fin n → Backend)
    (hw : ∀ i, (backends i).is_healthy = true → 0 < (backends i).weight)
    (hne : ∃ i, (backends i).is_healthy = true) :
    0 < healthyTotalWeight backends := by
  obtain ⟨i0, h0⟩ := hne
  unfold healthyTotalWeight
  refine Finset.sum_pos' (fun i _ => ?_) ⟨i0, Finset.mem_univ i0, ?_⟩
  · by_cases hi : (backends i).is_healthy = true
    · rw [if_pos hi]
      exact (hw i hi).le
    · rw [if_neg hi]
  · rw [if_pos h0]
    exact hw i0 h0

lemma sum_count_univ {n : Nat} (l : List (Fin n)) : ∑ i, l.count i = l.length := by
  induction l with
  | nil => simp
  | cons a t ih =>
    have hc : ∀ i : Fin n, (a :: t).count i = t.count i + if a = i then 1 else 0 := by
      intro i
      simp [List.count_cons]
    calc ∑ i, (a :: t).count i
        = ∑ i, (t.count i + if a = i then 1 else 0) := Finset.sum_congr rfl (fun i _ => hc i)
      _ = (∑ i, t.count i) + ∑ i, (if a = i then 1 else 0) := Finset.sum_add_distrib
      _ = t.length + 1 := by
          rw [ih, Finset.sum_ite_eq Finset.univ a (fun _ => 1)]
          simp
      _ = (a :: t).length := by simp

lemma wrrRun_spec {n : Nat} (k : Nat) :
    ∀ (lb : LoadBalancer n),
    (∀ i, (lb.backends i).is_healthy = true → 0 < (lb.backends i).weight) →
    (∃ i, (lb.backends i).is_healthy = true) →
    (∑ i, (if (lb.backends i).is_healthy then (lb.backends i).current_weight else 0)) = 0 →
    (∀ i, (lb.backends i).is_healthy = true →
      -(healthyTotalWeight lb.backends) < (lb.backends i).current_weight) →
    ∃ sels lb', wrrRun lb k = Except.ok (sels, lb') ∧
      sels.length = k ∧
      (∀ i, (lb'.backends i).weight = (lb.backends i).weight) ∧
      (∀ i, (lb'.backends i).is_healthy = (lb.backends i).is_healthy) ∧
      (∀ i, (lb.backends i).is_healthy = true →
        (lb'.backends i).current_weight =
          (lb.backends i).current_weight + (k : Int) * (lb.backends i).weight
            - (sels.count i : Int) * healthyTotalWeight lb.backends) ∧
      (∀ i, ¬(lb.backends i).is_healthy = true → sels.count i = 0) ∧
      (∀ i, (lb.backends i).is_healthy = true →
        -(healthyTotalWeight lb.backends) < (lb'.backends i).current_weight) := by
  induction k with
  | zero =>
    intro lb hw hne hsum hbound
    refine ⟨[], lb, rfl, rfl, fun i => rfl, fun i => rfl, ?_, ?_, hbound⟩
    · intro i hi
      simp
    · intro i hi
      simp
  | succ k ih =>
    intro lb hw hne hsum hbound
    obtain ⟨j, lb2, hsel, hhj, hci, halg, hw2, hh2, hcw2, hmax⟩ := select_wrr_spec lb hne
    have hTpos : 0 < healthyTotalWeight lb.backends := healthyTotal_pos lb.backends hw hne
    have hsum2 : ∑ i, (if (lb.backends i).is_healthy then
        (lb.backends i).current_weight + (lb.backends i).weight else 0)
        = healthyTotalWeight lb.backends := by
      have hsplit : ∀ i : Fin n, (if (lb.backends i).is_healthy then
          (lb.backends i).current_weight + (lb.backends i).weight else 0)
          = (if (lb.backends i).is_healthy then (lb.backends i).current_weight else 0)
            + (if (lb.backends i).is_healthy then (lb.backends i).weight else 0) := by
        intro i
        by_cases hi : (lb.backends i).is_healthy = true
        · rw [if_pos hi, if_pos hi, if_pos hi]
        · rw [if_neg hi, if_neg hi, if_neg hi, add_zero]
      rw [Finset.sum_congr rfl (fun i _ => hsplit i), Finset.sum_add_distrib, hsum, zero_add]
      rfl
    have hex : ∃ i, (lb.backends i).is_healthy = true ∧
        0 < (lb.backends i).current_weight + (lb.backends i).weight := by
      by_contra hcon
      push_neg at hcon
      have hle : ∑ i, (if (lb.backends i).is_healthy then
          (lb.backends i).current_weight + (lb.backends i).weight else 0) ≤ 0 := by
        refine Finset.sum_nonpos (fun i _ => ?_)
        by_cases hi : (lb.backends i).is_healthy = true
        · rw [if_pos hi]
          exact hcon i hi
        · rw [if_neg hi]
      rw [hsum2] at hle
      exact absurd hle (not_le.mpr hTpos)
    obtain ⟨i0, hi0h, hi0pos⟩ := hex
    have hjpos : 0 < (lb.backends j).current_weight + (lb.backends j).weight :=
      lt_of_lt_of_le hi0pos (hmax i0 hi0h)
    have hT2 : healthyTotalWeight lb2.backends = healthyTotalWeight lb.backends := by
      unfold healthyTotalWeight
      refine Finset.sum_congr rfl (fun i _ => ?_)
      rw [hh2 i, hw2 i]
    have hw' : ∀ i, (lb2.backends i).is_healthy = true → 0 < (lb2.backends i).weight := by
      intro i hi
      rw [hw2 i]
      refine hw i ?_
      rw [← hh2 i]
      exact hi
    have hne' : ∃ i, (lb2.backends i).is_healthy = true := by
      refine ⟨j, ?_⟩
      rw [hh2 j]
      exact hhj
    have hsum' : (∑ i, (if (lb2.backends i).is_healthy then
        (lb2.backends i).current_weight else 0)) = 0 := by
      have hpt : ∀ i : Fin n, (if (lb2.backends i).is_healthy then
          (lb2.backends i).current_weight else 0)
          = (if (lb.backends i).is_healthy then
              (lb.backends i).current_weight + (lb.backends i).weight else 0)
            - (if (lb.backends i).is_healthy then
                (if i = j then healthyTotalWeight lb.backends else 0) else 0) := by
        intro i
        rw [hh2 i, hcw2 i]
        by_cases hi : (lb.backends i).is_healthy = true <;> simp [hi]
      have hsumj : ∑ i, (if (lb.backends i).is_healthy then
          (if i = j then healthyTotalWeight lb.backends else 0) else 0)
          = healthyTotalWeight lb.backends := by
        have hpt2 : ∀ i : Fin n, (if (lb.backends i).is_healthy then
            (if i = j then healthyTotalWeight lb.backends else 0) else 0)
            = (if i = j then
                (if (lb.backends i).is_healthy then healthyTotalWeight lb.backends else 0)
              else 0) := by
          intro i
          by_cases hi : (lb.backends i).is_healthy = true <;> by_cases hij : i = j <;>
            simp [hi, hij]
        rw [Finset.sum_congr rfl (fun i _ => hpt2 i), Finset.sum_ite_eq' Finset.univ j _]
        simp [hhj]
      rw [Finset.sum_congr rfl (fun i _ => hpt i), Finset.sum_sub_distrib, hsum2, hsumj]
      exact sub_self _
    have hbound' : ∀ i, (lb2.backends i).is_healthy = true →
        -(healthyTotalWeight lb2.backends) < (lb2.backends i).current_weight := by
      intro i hi2
      have hi : (lb.backends i).is_healthy = true := by
        rw [← hh2 i]
        exact hi2
      rw [hT2, hcw2 i, if_pos hi]
      by_cases hij : i = j
      · subst hij
        rw [if_pos rfl]
        linarith
      · rw [if_neg hij, sub_zero]
        have hb1 := hbound i hi
        have hb2 := hw i hi
        linarith
    obtain ⟨sels', lb'', hrun', hlen', hww'', hh'', hcw'', hcnt0'', hbound''⟩ :=
      ih lb2 hw' hne' hsum' hbound'
    refine ⟨j :: sels', lb'', ?_, ?_, ?_, ?_, ?_, ?_, ?_⟩
    · show wrrRun lb (k + 1) = Except.ok (j :: sels', lb'')
      simp only [wrrRun]
      rw [hsel]
      show (match wrrRun lb2 k with
        | Except.error e => Except.error e
        | Except.ok (sels, lb3) => Except.ok (j :: sels, lb3)) = Except.ok (j :: sels', lb'')
      rw [hrun']
    · rw [List.length_cons, hlen']
    · intro i
      rw [hww'' i, hw2 i]
    · intro i
      rw [hh'' i, hh2 i]
    · intro i hi
      have hi2 : (lb2.backends i).is_healthy = true := by
        rw [hh2 i]
        exact hi
      have hcwi := hcw'' i hi2
      rw [hw2 i, hT2, hcw2 i, if_pos hi] at hcwi
      by_cases hij : i = j
      · have hcount : (j :: sels').count i = sels'.count i + 1 := by
          simp [List.count_cons, hij]
        rw [hcwi, hcount, if_pos hij]
        push_cast
        ring
      · have hcount : (j :: sels').count i = sels'.count i := by
          have hji : ¬ j = i := fun h => hij h.symm
          simp [List.count_cons, hji]
        rw [hcwi, hcount, if_neg hij]
        push_cast
        ring
    · intro i hi
      have hi2 : ¬(lb2.backends i).is_healthy = true := by
        rw [hh2 i]
        exact hi
      have hij : ¬ i = j := fun he => hi (he ▸ hhj)
      have hji : ¬ j = i := fun h => hij h.symm
      have hc0 := hcnt0'' i hi2
      simp [List.count_cons, hc0, hji]
    · intro i hi
      have hi2 : (lb2.backends i).is_healthy = true := by
        rw [hh2 i]
        exact hi
      have hb := hbound'' i hi2
      rw [hT2] at hb
      exact hb

/-- C1: smooth weighted round-robin full-cycle fairness — starting from all
`current_weight = 0`, over exactly `Σ wᵢ` consecutive selections (the sum of
the healthy backends' positive weights), every healthy backend is selected
exactly its weight many times and unhealthy backends are never selected. -/
theorem wrr_full_cycle_counts {n : Nat} (lb : LoadBalancer n)
    (hcw : ∀ i, (lb.backends i).current_weight = 0)
    (hw : ∀ i, (lb.backends i).is_healthy = true → 0 < (lb.backends i).weight)
    (hne : ∃ i, (lb.backends i).is_healthy = true) :
    ∃ sels lb', wrrRun lb (healthyTotalWeight lb.backends).toNat = Except.ok (sels, lb') ∧
      sels.length = (healthyTotalWeight lb.backends).toNat ∧
      (∀ i, (lb.backends i).is_healthy = true →
        (sels.count i : Int) = (lb.backends i).weight) ∧
      (∀ i, ¬(lb.backends i).is_healthy = true → sels.count i = 0) := by
  have hTpos : 0 < healthyTotalWeight lb.backends := healthyTotal_pos lb.backends hw hne
  have hsum0 : (∑ i, (if (lb.backends i).is_healthy then
      (lb.backends i).current_weight else 0)) = 0 := by
    refine Finset.sum_eq_zero (fun i _ => ?_)
    rw [hcw i]
    exact ite_self 0
  have hbound0 : ∀ i, (lb.backends i).is_healthy = true →
      -(healthyTotalWeight lb.backends) < (lb.backends i).current_weight := by
    intro i hi
    rw [hcw i]
    linarith
  obtain ⟨sels, lb', hrun, hlen, hww, hhh, hcw', hcnt0, hbound'⟩ :=
    wrrRun_spec (healthyTotalWeight lb.backends).toNat lb hw hne hsum0 hbound0
  have hcast : ((healthyTotalWeight lb.backends).toNat : Int) = healthyTotalWeight lb.backends :=
    Int.toNat_of_nonneg hTpos.le
  have hle : ∀ i ∈ Finset.univ.filter (fun i => (lb.backends i).is_healthy = true),
      (sels.count i : Int) ≤ (lb.backends i).weight := by
    intro i hi
    have hih : (lb.backends i).is_healthy = true := (Finset.mem_filter.mp hi).2
    have hcwi := hcw' i hih
    rw [hcw i, hcast, zero_add] at hcwi
    have hbi := hbound' i hih
    rw [hcwi] at hbi
    have hexp : healthyTotalWeight lb.backends *
        ((lb.backends i).weight - (sels.count i : Int) + 1)
        = healthyTotalWeight lb.backends * (lb.backends i).weight
          - (sels.count i : Int) * healthyTotalWeight lb.backends
          + healthyTotalWeight lb.backends := by
      ring
    have h1 : healthyTotalWeight lb.backends * 0 < healthyTotalWeight lb.backends *
        ((lb.backends i).weight - (sels.count i : Int) + 1) := by
      rw [mul_zero, hexp]
      linarith
    have h2 : (0 : Int) < (lb.backends i).weight - (sels.count i : Int) + 1 :=
      lt_of_mul_lt_mul_left h1 hTpos.le
    omega
  have hsumc : ∑ i in Finset.univ.filter (fun i => (lb.backends i).is_healthy = true),
      (sels.count i : Int)
      = ∑ i in Finset.univ.filter (fun i => (lb.backends i).is_healthy = true),
        (lb.backends i).weight := by
    have hL : ∑ i in Finset.univ.filter (fun i => (lb.backends i).is_healthy = true),
        (sels.count i : Int) = ∑ i, (sels.count i : Int) := by
      refine Finset.sum_subset (Finset.subset_univ _) (fun i _ hni => ?_)
      have hnh : ¬(lb.backends i).is_healthy = true := by
        intro hcontra
        exact hni (Finset.mem_filter.mpr ⟨Finset.mem_univ i, hcontra⟩)
      rw [hcnt0 i hnh]
      rfl
    have hcount_univ : ∑ i, (sels.count i : Int) = (sels.length : Int) := by
      rw [← Nat.cast_sum, sum_count_univ]
    have hR : ∑ i in Finset.univ.filter (fun i => (lb.backends i).is_healthy = true),
        (lb.backends i).weight = healthyTotalWeight lb.backends := by
      unfold healthyTotalWeight
      rw [Finset.sum_filter]
    rw [hL, hcount_univ, hlen, hcast, hR]
  have heq := (Finset.sum_eq_sum_iff_of_le hle).mp hsumc
  refine ⟨sels, lb', hrun, hlen, ?_, hcnt0⟩
  intro i hi
  exact heq i (Finset.mem_filter.mpr ⟨Finset.mem_univ i, hi⟩)

/-- C1 witness: the fairness theorem applied to the concrete roster with
healthy weights 2 and 1 and an unhealthy backend of weight 5. -/
theorem wrr_full_cycle_counts_witness :
    (∀ i, (lbW.backends i).current_weight = 0) ∧
    (∀ i, (lbW.backends i).is_healthy = true → 0 < (lbW.backends i).weight) ∧
    (∃ sels lb', wrrRun lbW (healthyTotalWeight lbW.backends).toNat = Except.ok (sels, lb') ∧
      sels.length = (healthyTotalWeight lbW.backends).toNat ∧
      (∀ i, (lbW.backends i).is_healthy = true →
        (sels.count i : Int) = (lbW.backends i).weight) ∧
      (∀ i, ¬(lbW.backends i).is_healthy = true → sels.count i = 0)) :=
  ⟨by decide, by decide,
    wrr_full_cycle_counts lbW (by decide) (by decide) ⟨0, by decide⟩⟩
